import Mathlib

/-!
Shallow embedding of `src/model_train.py` (an MNIST training script:
a CNN model, one `train` function per epoch, a `test` evaluation
function, and a `main` orchestrator that runs 10 epochs under a tracked
run scope).

Modelling conventions:
* Tensor math done by the libraries (per-example cross-entropy values,
  per-example prediction correctness, the Adam update) is abstracted into
  oracle functions passed as parameters; every piece of control flow,
  accumulation arithmetic and logging of the script itself is embedded.
* `nn.CrossEntropyLoss()` is constructed with its default mean reduction,
  so the value of `loss_fn(output, target)` for one batch is the MEAN of
  the per-example losses over that batch; this is embedded explicitly in
  `batchLoss`.
* Machine floats are modelled as exact rationals (reals only where a
  square root or exponential is required); mlflow's formatting of metric
  values to four decimals is abstracted away (the logged value is the
  computed number).
* Side effects (mlflow calls, prints, forward passes) are modelled as an
  emitted trace of `Event`s; `torch.no_grad()` is modelled by the Boolean
  carried on each forward-pass event.
-/

namespace ModelTrain

/-- One observable side effect of the script: an mlflow call, a console
print, or a forward pass of the model (tagged with whether it ran under
the no-gradient-tracking scope). -/
inductive Event where
  | runStart : Event
  | runEnd : Event
  | logParams : Event
  | logArtifact : Event
  | trainStep : ℕ → Event
  | evalStep : Event
  | logMetric : String → ℚ → Option ℕ → Event
  | printLine : Event
  | forwardPass : Bool → Event
  deriving DecidableEq

/-- The mutable state of an `nn.Module`: its learnable parameters (of an
abstract type `P`) and its training-mode flag (set by `model.train()` /
`model.eval()`). -/
structure ModelState (P : Type) where
  params : P
  training : Bool
  deriving DecidableEq

/-- A `DataLoader` over a `TensorDataset`: the list of batches (each a
list of examples of abstract type `E`) and the size of the underlying
dataset (`len(loader.dataset)`). -/
structure DataLoader (E : Type) where
  batches : List (List E)
  datasetSize : ℕ

variable {P E : Type}

section Oracles

/- Oracles: `exLoss m e` abstracts the per-example cross-entropy value of
the model's output on example `e` (tensor math delegated to the library);
`exCorrect m e` abstracts whether `output.argmax(dim=1)` equals the
example's target; `optUpdate p b` abstracts the parameter change of
`loss.backward(); optimizer.step()` on batch `b`. -/
variable (exLoss : ModelState P → E → ℚ) (exCorrect : ModelState P → E → Bool)
variable (optUpdate : P → List E → P)

/-- The value of `loss_fn(output, target)` on one batch:
`nn.CrossEntropyLoss()` with its default reduction returns the mean of
the per-example losses. -/
def batchLoss (m : ModelState P) (b : List E) : ℚ :=
  (b.map (exLoss m)).sum / (b.length : ℚ)

/-- The value of `pred.eq(target.view_as(pred)).sum().item()` on one
batch: how many examples the model predicts correctly. -/
def batchCorrect (m : ModelState P) (b : List E) : ℕ :=
  b.countP (exCorrect m)

/-- The result of the `test` function (`model_train.py` lines 53-71):
the value of `test_loss` after the final division, the accuracy
`correct / len(test_loader.dataset)`, the raw correct count, and the
trace of side effects. -/
structure TestResult where
  avgLoss : ℚ
  accuracy : ℚ
  correct : ℕ
  events : List Event

/-- Embedding of `test(model, device, loss_fn, test_loader)`:
`model.eval()`; then under `torch.no_grad()` each batch adds
`loss_fn(output, target).item()` to `test_loss` and the batch's correct
count to `correct`; after the loop `test_loss /= len(test_loader.dataset)`,
`test_acc = correct / len(test_loader.dataset)`, both are logged with no
step, and a summary line is printed. -/
def testE (m : ModelState P) (loader : DataLoader E) :
    ModelState P × TestResult :=
  let m1 : ModelState P := { params := m.params, training := false }
  let acc := loader.batches.foldl
    (fun (a : ℚ × ℕ × List Event) b =>
      (a.1 + batchLoss exLoss m1 b,
       a.2.1 + batchCorrect exCorrect m1 b,
       a.2.2 ++ [Event.forwardPass true]))
    (0, 0, [])
  let testLoss : ℚ := acc.1 / (loader.datasetSize : ℚ)
  let testAcc : ℚ := (acc.2.1 : ℚ) / (loader.datasetSize : ℚ)
  (m1,
   { avgLoss := testLoss
     accuracy := testAcc
     correct := acc.2.1
     events := acc.2.2 ++
       [Event.logMetric "test_loss" testLoss none,
        Event.logMetric "test_accuracy" testAcc none,
        Event.printLine] })

/-- The result of the `train` function (`model_train.py` lines 31-51):
the final model state, the final running `correct` count, the value of
`train_acc` computed after each batch (line 44), and each batch's
emitted side effects (line 46-51). -/
structure TrainOut (P : Type) where
  model : ModelState P
  correct : ℕ
  accs : List ℚ
  batchEvents : List (List Event)

/-- The loop body of `train`, recursing over the remaining batches:
`e` is the epoch argument, `N` is `len(train_loader.dataset)`, `i` the
current `batch_idx`, `c` the running `correct` count.  Per batch:
forward pass (gradients enabled), loss, backward + optimizer step
(`optUpdate`), `correct += ...`, `train_acc = correct / N`; when
`batch_idx % 100 == 0` it logs `loss` and `accuracy` with step
`batch_idx // 100 * (epoch+1)` and prints a progress line. -/
def trainGo (e N : ℕ) : ℕ → ModelState P → ℕ → List (List E) → TrainOut P
  | _, ms, c, [] => ⟨ms, c, [], []⟩
  | i, ms, c, b :: bs =>
    let loss := batchLoss exLoss ms b
    let c' := c + batchCorrect exCorrect ms b
    let acc : ℚ := (c' : ℚ) / (N : ℚ)
    let st := i / 100 * (e + 1)
    let ev : List Event := Event.forwardPass false ::
      (if i % 100 = 0 then
        [Event.logMetric "loss" loss (some st),
         Event.logMetric "accuracy" acc (some st),
         Event.printLine]
      else [])
    let r := trainGo e N (i + 1) { ms with params := optUpdate ms.params b } c' bs
    ⟨r.model, r.correct, acc :: r.accs, ev :: r.batchEvents⟩

/-- Embedding of `train(model, device, loss_fn, train_loader, optimizer,
epoch)`: `model.train()`, `correct = 0`, then the batch loop starting at
`batch_idx = 0`. -/
def trainE (m : ModelState P) (loader : DataLoader E) (e : ℕ) : TrainOut P :=
  trainGo exLoss exCorrect optUpdate e loader.datasetSize 0
    { m with training := true } 0 loader.batches

/-- The per-batch correct counts of one epoch, computed against the
parameter state current at each batch (the parameters evolve through
`optimizer.step()` between batches). -/
def batchCorrectList : ModelState P → List (List E) → List ℕ
  | _, [] => []
  | ms, b :: bs =>
    batchCorrect exCorrect ms b ::
      batchCorrectList { ms with params := optUpdate ms.params b } bs

/-- One iteration of `main`'s epoch loop (`model_train.py` lines
138-140): `train(...)` then `test(...)`, threading the model state and
appending both calls' events (each call preceded by its step marker). -/
def epochBody (trainLoader testLoader : DataLoader E)
    (s : ModelState P × List Event) (e : ℕ) : ModelState P × List Event :=
  let tr := trainE exLoss exCorrect optUpdate s.1 trainLoader e
  let te := testE exLoss exCorrect tr.model testLoader
  (te.1,
   s.2 ++ (Event.trainStep e :: tr.batchEvents.flatten) ++
     (Event.evalStep :: te.2.events))

/-- Embedding of the body of `main` from `with mlflow.start_run()` on
(`model_train.py` lines 119-142): inside the run scope it logs the
hyperparameters and the model-summary artifact, loops `epoch` over
`range(1, epochs+1)` with `epochs = 10` calling `train` then `test`,
and performs one more `test` before the scope closes the run. -/
def runMain (m0 : ModelState P) (trainLoader testLoader : DataLoader E) :
    ModelState P × List Event :=
  let s0 : ModelState P × List Event :=
    (m0, [Event.logParams, Event.logArtifact])
  let s1 := (List.range' 1 10).foldl
    (epochBody exLoss exCorrect optUpdate trainLoader testLoader) s0
  let fin := testE exLoss exCorrect s1.1 testLoader
  (fin.1,
   Event.runStart ::
     (s1.2 ++ (Event.evalStep :: fin.2.events) ++ [Event.runEnd]))

end Oracles

/-! ## The train/test split (`model_train.py` line 82)

The script calls sklearn's `train_test_split(X, y, test_size=1/7,
random_state=42)`.  The split itself lives in the sklearn library, whose
documented behaviour for a fractional `test_size` is:
`n_test = ceil(test_size * n_samples)`, `n_train = n_samples - n_test`;
a seed-determined permutation of the indices is drawn and the first
`n_test` shuffled indices form the test partition, the rest the train
partition.  The Mersenne-Twister permutation is abstracted as a
parameter `σ`; `test_size * n_samples` is computed with the exact
rational `1/7` (the float nearest `1/7` gives the same ceiling for
every dataset size considered here). -/

/-- Number of test examples chosen by `train_test_split` for a dataset
of `n` examples at `test_size = 1/7`: the ceiling of `n / 7`. -/
def testSize (n : ℕ) : ℕ := (⌈(n : ℚ) / 7⌉).toNat

/-- Number of train examples: the remainder of the dataset. -/
def trainSize (n : ℕ) : ℕ := n - testSize n

/-- The index split produced by `train_test_split` with a fixed seed:
the seed-determined permutation `σ` shuffles the indices, the first
`testSize n` shuffled indices are the test partition, the remaining
ones the train partition. -/
def splitIdx (n : ℕ) (σ : Equiv.Perm (Fin n)) : List (Fin n) × List (Fin n) :=
  let shuffled := (List.finRange n).map σ
  (shuffled.take (testSize n), shuffled.drop (testSize n))

/-! ## The feature scaling (`model_train.py` lines 85-87)

`StandardScaler` is fit on `X_train` and the fitted transform applied
to both partitions.  Per sklearn, fitting records each column's mean
and its scale — the square root of the biased (population) variance,
except that a zero-variance column gets scale 1 so the transform never
divides by zero; transforming subtracts the recorded mean and divides
by the recorded scale.  Modelled over the reals (a matrix is a function
of row and column indices). -/

/-- Mean of column `j` of an `n × d` data matrix. -/
noncomputable def colMean (n d : ℕ) (X : Fin n → Fin d → ℝ) (j : Fin d) : ℝ :=
  (∑ i, X i j) / (n : ℝ)

/-- Biased (population) variance of column `j`, as sklearn computes it. -/
noncomputable def colVar (n d : ℕ) (X : Fin n → Fin d → ℝ) (j : Fin d) : ℝ :=
  (∑ i, (X i j - colMean n d X j) ^ 2) / (n : ℝ)

/-- Standard deviation of column `j`. -/
noncomputable def colStd (n d : ℕ) (X : Fin n → Fin d → ℝ) (j : Fin d) : ℝ :=
  Real.sqrt (colVar n d X j)

/-- The per-column scale `StandardScaler` records when fitting: the
standard deviation, except that a constant (zero-variance) column gets
scale 1. -/
noncomputable def scalerScale (n d : ℕ) (X : Fin n → Fin d → ℝ) (j : Fin d) : ℝ :=
  if colVar n d X j = 0 then 1 else Real.sqrt (colVar n d X j)

/-- Applying a fitted scaler (column means `μ`, column scales `s`) to a
data matrix. -/
noncomputable def scalerTransform (m d : ℕ) (μ s : Fin d → ℝ)
    (X : Fin m → Fin d → ℝ) : Fin m → Fin d → ℝ :=
  fun i j => (X i j - μ j) / s j

/-- Lines 85-87 of `main`: `scaler = StandardScaler()`,
`X_train = scaler.fit_transform(X_train)`,
`X_test = scaler.transform(X_test)` — the scaler is fit on the train
partition only and the same fitted parameters transform both
partitions. -/
noncomputable def scalePartitions (n m d : ℕ) (Xtr : Fin n → Fin d → ℝ)
    (Xte : Fin m → Fin d → ℝ) : (Fin n → Fin d → ℝ) × (Fin m → Fin d → ℝ) :=
  let μ := colMean n d Xtr
  let s := scalerScale n d Xtr
  (scalerTransform n d μ s Xtr, scalerTransform m d μ s Xte)

/-! ## The CNN model (`model_train.py` lines 14-29)

`CNNModel.forward`: `conv1` (1→32 channels, 3×3 kernel, padding 1) →
ReLU → 2×2 max-pool → `conv2` (32→64, 3×3, padding 1) → ReLU → 2×2
max-pool → flatten to `64*7*7 = 3136` features → `fc1` (→128) → ReLU →
`fc2` (→10) → `log_softmax` along the class dimension.  A feature map
is a function of channel, row and column indices; the layers up to the
logits are exact rational arithmetic; the final `log_softmax` needs the
real exponential. -/

/-- Reading a feature map with zero padding: index `(i, j)` in `ℤ`,
entries outside `[0, hh) × [0, ww)` are 0 (the effect of `padding=1` on
a 3×3 convolution). -/
def padGet (cc hh ww : ℕ) (x : Fin cc → Fin hh → Fin ww → ℚ)
    (c : Fin cc) (i j : ℤ) : ℚ :=
  if h : 0 ≤ i ∧ i < hh ∧ 0 ≤ j ∧ j < ww then
    x c ⟨i.toNat, by omega⟩ ⟨j.toNat, by omega⟩
  else 0

/-- An `nn.Conv2d(cin, cout, kernel_size=3, padding=1)` layer: output
spatial size equals input spatial size; each output entry is the bias
plus the 3×3 windowed sum over all input channels. -/
def conv2d (cin cout hh ww : ℕ) (w : Fin cout → Fin cin → Fin 3 → Fin 3 → ℚ)
    (bias : Fin cout → ℚ) (x : Fin cin → Fin hh → Fin ww → ℚ) :
    Fin cout → Fin hh → Fin ww → ℚ :=
  fun o i j => bias o + ∑ c, ∑ a : Fin 3, ∑ b : Fin 3,
    w o c a b * padGet cin hh ww x c ((i : ℤ) + (a : ℤ) - 1) ((j : ℤ) + (b : ℤ) - 1)

/-- Pointwise ReLU on a feature map. -/
def reluMap (cc hh ww : ℕ) (x : Fin cc → Fin hh → Fin ww → ℚ) :
    Fin cc → Fin hh → Fin ww → ℚ :=
  fun c i j => max 0 (x c i j)

/-- An `nn.MaxPool2d(kernel_size=2, stride=2, padding=0)` layer: halves
each spatial dimension, each output entry the max of its 2×2 window. -/
def maxPool2 (cc hh ww : ℕ) (x : Fin cc → Fin (2 * hh) → Fin (2 * ww) → ℚ) :
    Fin cc → Fin hh → Fin ww → ℚ :=
  fun c i j =>
    let i0 : Fin (2 * hh) := ⟨2 * (i : ℕ), by omega⟩
    let i1 : Fin (2 * hh) := ⟨2 * (i : ℕ) + 1, by omega⟩
    let j0 : Fin (2 * ww) := ⟨2 * (j : ℕ), by omega⟩
    let j1 : Fin (2 * ww) := ⟨2 * (j : ℕ) + 1, by omega⟩
    max (max (x c i0 j0) (x c i0 j1)) (max (x c i1 j0) (x c i1 j1))

/-- `x.view(-1, 64*7*7)` on one sample: the 64 × 7 × 7 feature map laid
out row-major as 3136 features. -/
def flattenMap (x : Fin 64 → Fin 7 → Fin 7 → ℚ) : Fin 3136 → ℚ :=
  fun k => x ⟨(k : ℕ) / 49, by omega⟩ ⟨(k : ℕ) % 49 / 7, by omega⟩ ⟨(k : ℕ) % 7, by omega⟩

/-- An `nn.Linear(din, dout)` layer. -/
def linear (din dout : ℕ) (w : Fin dout → Fin din → ℚ) (bias : Fin dout → ℚ)
    (v : Fin din → ℚ) : Fin dout → ℚ :=
  fun o => bias o + ∑ i, w o i * v i

/-- Pointwise ReLU on a feature vector. -/
def reluVec (dd : ℕ) (v : Fin dd → ℚ) : Fin dd → ℚ := fun i => max 0 (v i)

/-- The learnable parameters of `CNNModel`, with the shapes its
`__init__` fixes. -/
structure CNNWeights where
  conv1w : Fin 32 → Fin 1 → Fin 3 → Fin 3 → ℚ
  conv1b : Fin 32 → ℚ
  conv2w : Fin 64 → Fin 32 → Fin 3 → Fin 3 → ℚ
  conv2b : Fin 64 → ℚ
  fc1w : Fin 128 → Fin 3136 → ℚ
  fc1b : Fin 128 → ℚ
  fc2w : Fin 10 → Fin 128 → ℚ
  fc2b : Fin 10 → ℚ

/-- `CNNModel.forward` up to the logits (everything before the final
`log_softmax`) on one 1×28×28 sample. -/
def forwardLogits (W : CNNWeights) (x : Fin 1 → Fin 28 → Fin 28 → ℚ) :
    Fin 10 → ℚ :=
  let c1 := reluMap 32 28 28 (conv2d 1 32 28 28 W.conv1w W.conv1b x)
  let p1 := maxPool2 32 14 14 c1
  let c2 := reluMap 64 14 14 (conv2d 32 64 14 14 W.conv2w W.conv2b p1)
  let p2 := maxPool2 64 7 7 c2
  let f := flattenMap p2
  let h := reluVec 128 (linear 3136 128 W.fc1w W.fc1b f)
  linear 128 10 W.fc2w W.fc2b h

/-- `F.log_softmax(x, dim=1)` on one output row. -/
noncomputable def logSoftmax (v : Fin 10 → ℝ) : Fin 10 → ℝ :=
  fun i => v i - Real.log (∑ j, Real.exp (v j))

/-- The full forward pass on a batch of `N` samples (the batch is a
list of length `N`): each sample's logits followed by `log_softmax`
along the class dimension.  The output is one length-`N` list of
10-entry class rows — shape `(N, 10)`. -/
noncomputable def forwardBatch (W : CNNWeights)
    (xs : List (Fin 1 → Fin 28 → Fin 28 → ℚ)) : List (Fin 10 → ℝ) :=
  xs.map (fun x => logSoftmax (fun i => ((forwardLogits W x i : ℚ) : ℝ)))

/-! ## Helper predicates on events -/

/-- Whether an event is a forward pass of the model. -/
def isForward : Event → Bool
  | .forwardPass _ => true
  | _ => false

/-- Whether an event is a run-scope or step marker (run open/close, a
training-step call, an evaluation-step call). -/
def isCtl : Event → Bool
  | .runStart => true
  | .runEnd => true
  | .trainStep _ => true
  | .evalStep => true
  | _ => false

/-- Whether an event is a training-step call marker. -/
def isTrainMarker : Event → Bool
  | .trainStep _ => true
  | _ => false

/-- The step indices carried by the metric records of an event list, in
order. -/
def stepsOf (l : List Event) : List ℕ :=
  l.filterMap fun ev =>
    match ev with
    | Event.logMetric _ _ (some s) => some s
    | _ => none

/-! ## Concrete instantiations used by counterexamples and witnesses -/

/-- A concrete model state over trivial parameters. -/
def ceModel : ModelState Unit := ⟨(), true⟩

/-- A concrete per-example loss oracle: the example is its own loss. -/
def ceLoss : ModelState Unit → ℚ → ℚ := fun _ x => x

/-- A concrete per-example correctness oracle: nothing is correct. -/
def ceCorrect : ModelState Unit → ℚ → Bool := fun _ _ => false

/-- A concrete test loader: two batches of two examples each, dataset
size 4; per-example losses 0, 2, 0, 0. -/
def ceLoader : DataLoader ℚ := ⟨[[0, 2], [0, 0]], 4⟩

/-- A concrete per-example correctness oracle: positive examples count
as correctly predicted. -/
def wCorrect : ModelState Unit → ℚ → Bool := fun _ x => decide (0 < x)

/-- A concrete optimizer update over trivial parameters. -/
def ceOpt : Unit → List ℚ → Unit := fun _ _ => ()

/-- A concrete train loader: two batches of two examples each, dataset
size 10. -/
def wLoader : DataLoader ℚ := ⟨[[0, 2], [1, 1]], 10⟩

/-- A concrete 2×1 data matrix whose only column is constant. -/
noncomputable def cX : Fin 2 → Fin 1 → ℝ := fun _ _ => 5

/-- A concrete 2×1 data matrix whose only column has entries 0 and 2
(mean 1, population variance 1). -/
noncomputable def wX : Fin 2 → Fin 1 → ℝ := fun i _ => if i = 0 then 0 else 2

/-! ## Helper lemmas -/

section Lemmas

variable {P E : Type}
variable (exLoss : ModelState P → E → ℚ) (exCorrect : ModelState P → E → Bool)
variable (optUpdate : P → List E → P)

/-- The accumulation loop of `test`: starting from any accumulator, the
fold adds the sum of the per-batch loss values, the sum of the per-batch
correct counts, and one forward-pass event per batch. -/
lemma test_fold_spec (m1 : ModelState P) (bs : List (List E)) :
    ∀ (l0 : ℚ) (c0 : ℕ) (ev0 : List Event),
      bs.foldl
        (fun (a : ℚ × ℕ × List Event) b =>
          (a.1 + batchLoss exLoss m1 b,
           a.2.1 + batchCorrect exCorrect m1 b,
           a.2.2 ++ [Event.forwardPass true]))
        (l0, c0, ev0)
      = (l0 + (bs.map (batchLoss exLoss m1)).sum,
         c0 + (bs.map (batchCorrect exCorrect m1)).sum,
         ev0 ++ List.replicate bs.length (Event.forwardPass true)) := by
  induction bs with
  | nil => intro l0 c0 ev0; simp
  | cons b bs ih =>
    intro l0 c0 ev0
    simp only [List.foldl_cons, ih, List.map_cons, List.sum_cons, List.length_cons,
      List.replicate_succ]
    refine Prod.ext ?_ (Prod.ext ?_ ?_) <;> simp [add_assoc]

/-- The components of `testE` spelled out against the fold lemma. -/
lemma testE_eq (m : ModelState P) (loader : DataLoader E) :
    testE exLoss exCorrect m loader =
      ({ params := m.params, training := false },
       { avgLoss := (loader.batches.map
            (batchLoss exLoss { params := m.params, training := false })).sum /
              (loader.datasetSize : ℚ)
         accuracy := ((loader.batches.map
            (batchCorrect exCorrect { params := m.params, training := false })).sum : ℚ) /
              (loader.datasetSize : ℚ)
         correct := (loader.batches.map
            (batchCorrect exCorrect { params := m.params, training := false })).sum
         events := List.replicate loader.batches.length (Event.forwardPass true) ++
           [Event.logMetric "test_loss"
              ((loader.batches.map
                (batchLoss exLoss { params := m.params, training := false })).sum /
                  (loader.datasetSize : ℚ)) none,
            Event.logMetric "test_accuracy"
              (((loader.batches.map
                (batchCorrect exCorrect { params := m.params, training := false })).sum : ℚ) /
                  (loader.datasetSize : ℚ)) none,
            Event.printLine] }) := by
  unfold testE
  simp only [test_fold_spec, zero_add, List.nil_append]

/-- The evaluation step emits no run-scope or step markers of its own. -/
lemma ctl_test_events (m : ModelState P) (loader : DataLoader E) :
    ((testE exLoss exCorrect m loader).2.events).filter isCtl = [] := by
  rw [testE_eq]
  simp [List.filter_append, List.filter_replicate, isCtl]

/-- The training step emits no run-scope or step markers of its own. -/
lemma ctl_trainGo_events (e N : ℕ) :
    ∀ (bs : List (List E)) (i : ℕ) (ms : ModelState P) (c : ℕ),
      ((trainGo exLoss exCorrect optUpdate e N i ms c bs).batchEvents.flatten).filter
        isCtl = [] := by
  intro bs
  induction bs with
  | nil => intro i ms c; simp [trainGo]
  | cons b bs ih =>
    intro i ms c
    by_cases h : i % 100 = 0 <;>
      simp [trainGo, h, List.filter_append, isCtl, ih]

/-- One epoch produces one `train_acc` value per batch. -/
lemma trainGo_accs_length (e N : ℕ) :
    ∀ (bs : List (List E)) (i : ℕ) (ms : ModelState P) (c : ℕ),
      (trainGo exLoss exCorrect optUpdate e N i ms c bs).accs.length = bs.length := by
  intro bs
  induction bs with
  | nil => intro i ms c; simp [trainGo]
  | cons b bs ih => intro i ms c; simp [trainGo, ih]

/-- One epoch produces one event group per batch. -/
lemma trainGo_batchEvents_length (e N : ℕ) :
    ∀ (bs : List (List E)) (i : ℕ) (ms : ModelState P) (c : ℕ),
      (trainGo exLoss exCorrect optUpdate e N i ms c bs).batchEvents.length =
        bs.length := by
  intro bs
  induction bs with
  | nil => intro i ms c; simp [trainGo]
  | cons b bs ih => intro i ms c; simp [trainGo, ih]

/-- The event group of the batch at offset `k` of the loop started at
batch index `i`: always one gradient-enabled forward pass, followed by
the two stepped metric records and the progress print exactly when the
batch index is a multiple of 100, the step being
`batch_idx // 100 * (epoch + 1)`. -/
lemma trainGo_events_getD (e N : ℕ) :
    ∀ (bs : List (List E)) (i : ℕ) (ms : ModelState P) (c k : ℕ), k < bs.length →
      ∃ l a : ℚ,
        (trainGo exLoss exCorrect optUpdate e N i ms c bs).batchEvents.getD k [] =
          Event.forwardPass false ::
            (if (i + k) % 100 = 0 then
              [Event.logMetric "loss" l (some ((i + k) / 100 * (e + 1))),
               Event.logMetric "accuracy" a (some ((i + k) / 100 * (e + 1))),
               Event.printLine]
             else []) := by
  intro bs
  induction bs with
  | nil => intro i ms c k hk; simp at hk
  | cons b bs ih =>
    intro i ms c k hk
    match k with
    | 0 =>
      refine ⟨batchLoss exLoss ms b,
        ((c + batchCorrect exCorrect ms b : ℕ) : ℚ) / (N : ℚ), ?_⟩
      simp [trainGo]
    | k + 1 =>
      have hk' : k < bs.length := by simpa using hk
      obtain ⟨l, a, hrec⟩ := ih (i + 1) { ms with params := optUpdate ms.params b }
        (c + batchCorrect exCorrect ms b) k hk'
      refine ⟨l, a, ?_⟩
      have hidx : i + 1 + k = i + (k + 1) := by omega
      rw [hidx] at hrec
      simpa [trainGo] using hrec

/-- The `train_acc` value computed after the batch at offset `k`: the
running correct count so far divided by `N`, the full training dataset
size. -/
lemma trainGo_accs_getD (e N : ℕ) :
    ∀ (bs : List (List E)) (i : ℕ) (ms : ModelState P) (c k : ℕ), k < bs.length →
      (trainGo exLoss exCorrect optUpdate e N i ms c bs).accs.getD k 0 =
        ((c + (((batchCorrectList exCorrect optUpdate ms bs).take (k + 1)).sum) : ℕ) : ℚ) /
          (N : ℚ) := by
  intro bs
  induction bs with
  | nil => intro i ms c k hk; simp at hk
  | cons b bs ih =>
    intro i ms c k hk
    match k with
    | 0 => simp [trainGo, batchCorrectList]
    | k + 1 =>
      have hk' : k < bs.length := by simpa using hk
      have hrec := ih (i + 1) { ms with params := optUpdate ms.params b }
        (c + batchCorrect exCorrect ms b) k hk'
      simp only [trainGo, List.getD_cons_succ, hrec, batchCorrectList,
        List.take_succ_cons, List.sum_cons]
      congr 2
      omega

/-- The final running correct count of one epoch is the sum of the
per-batch correct counts. -/
lemma trainGo_correct (e N : ℕ) :
    ∀ (bs : List (List E)) (i : ℕ) (ms : ModelState P) (c : ℕ),
      (trainGo exLoss exCorrect optUpdate e N i ms c bs).correct =
        c + (batchCorrectList exCorrect optUpdate ms bs).sum := by
  intro bs
  induction bs with
  | nil => intro i ms c; simp [trainGo, batchCorrectList]
  | cons b bs ih =>
    intro i ms c
    simp only [trainGo, ih, batchCorrectList, List.sum_cons]
    omega

/-- There is one per-batch correct count per batch. -/
lemma batchCorrectList_length :
    ∀ (bs : List (List E)) (ms : ModelState P),
      (batchCorrectList exCorrect optUpdate ms bs).length = bs.length := by
  intro bs
  induction bs with
  | nil => intro ms; simp [batchCorrectList]
  | cons b bs ih => intro ms; simp [batchCorrectList, ih]

/-- The run-scope and step markers accumulated by `main`'s epoch loop:
one training-step marker then one evaluation-step marker per epoch. -/
lemma ctl_epoch_foldl (trainLoader testLoader : DataLoader E) :
    ∀ (l : List ℕ) (s : ModelState P × List Event),
      ((l.foldl (epochBody exLoss exCorrect optUpdate trainLoader testLoader) s).2).filter
          isCtl
        = s.2.filter isCtl ++
            (l.map (fun e => [Event.trainStep e, Event.evalStep])).flatten := by
  intro l
  induction l with
  | nil => intro s; simp
  | cons e l ih =>
    intro s
    rw [List.foldl_cons, ih]
    have htr := ctl_trainGo_events exLoss exCorrect optUpdate e
      trainLoader.datasetSize trainLoader.batches 0
      { s.1 with training := true } 0
    simp [epochBody, List.filter_append, isCtl, trainE, htr,
      ctl_test_events, List.append_assoc]

end Lemmas




/-- A `1/7` test fraction never asks for more test examples than the
dataset has. -/
lemma testSize_le (n : ℕ) : testSize n ≤ n := by
  unfold testSize
  rw [Int.toNat_le]
  rw [Int.ceil_le]
  push_cast
  exact div_le_self (by positivity) (by norm_num)

/-- Exponentiating a `log_softmax` row gives a probability vector: the
entries sum to 1. -/
lemma sum_exp_logSoftmax (v : Fin 10 → ℝ) :
    (∑ i, Real.exp (logSoftmax v i)) = 1 := by
  have hS : (0 : ℝ) < ∑ j, Real.exp (v j) :=
    Finset.sum_pos (fun j _ => Real.exp_pos _) ⟨0, Finset.mem_univ 0⟩
  simp only [logSoftmax, Real.exp_sub, Real.exp_log hS]
  rw [← Finset.sum_div, div_self hS.ne']

/-- After centring, every column of the train partition sums to 0. -/
lemma sum_sub_colMean (n d : ℕ) (X : Fin n → Fin d → ℝ) (hn : 0 < n)
    (j : Fin d) : (∑ i, (X i j - colMean n d X j)) = 0 := by
  rw [Finset.sum_sub_distrib, Finset.sum_const, Finset.card_univ,
    Fintype.card_fin, nsmul_eq_mul, colMean]
  have hnR : ((n : ℝ)) ≠ 0 := by positivity
  field_simp

/-- The column variance is never negative. -/
lemma colVar_nonneg (n d : ℕ) (X : Fin n → Fin d → ℝ) (j : Fin d) :
    0 ≤ colVar n d X j := by
  rw [colVar]
  positivity

/-- Scaled train-partition columns have mean exactly 0. -/
lemma colMean_scaled (n d : ℕ) (X : Fin n → Fin d → ℝ) (hn : 0 < n)
    (s : Fin d → ℝ) (j : Fin d) :
    colMean n d (scalerTransform n d (colMean n d X) s X) j = 0 := by
  rw [colMean]
  simp only [scalerTransform]
  rw [← Finset.sum_div, sum_sub_colMean n d X hn j, zero_div, zero_div]

/-! ## Claim theorems -/

/-- C1, counterexample.  With `nn.CrossEntropyLoss()`'s default mean
reduction, `test` accumulates per-batch MEAN losses, so the reported
average loss ((0+2)/2 + (0+0)/2) / 4 = 1/4 differs from the summed
per-example loss divided by the number of test examples,
(0+2+0+0) / 4 = 1/2. -/
theorem test_avg_loss_neq_summed_loss_cex :
    (testE ceLoss ceCorrect ceModel ceLoader).2.avgLoss = 1 / 4
    ∧ ((ceLoader.batches.flatten.map (ceLoss ⟨(), false⟩)).sum) /
        (ceLoader.datasetSize : ℚ) = 1 / 2
    ∧ (testE ceLoss ceCorrect ceModel ceLoader).2.avgLoss ≠
        ((ceLoader.batches.flatten.map (ceLoss ⟨(), false⟩)).sum) /
          (ceLoader.datasetSize : ℚ) := by
  have h1 : (testE ceLoss ceCorrect ceModel ceLoader).2.avgLoss = 1 / 4 := by
    rw [testE_eq]
    simp [ceLoader, ceLoss, batchLoss]
  have h2 : ((ceLoader.batches.flatten.map (ceLoss ⟨(), false⟩)).sum) /
      (ceLoader.datasetSize : ℚ) = 1 / 2 := by
    simp [ceLoader, ceLoss]
    norm_num
  exact ⟨h1, h2, by rw [h1, h2]; norm_num⟩

/-- C1 (amended).  Over the whole test partition `test` accumulates the
per-batch loss values (each the batch-mean cross-entropy, the default
reduction) and the correct-prediction count batch by batch; after all
batches the reported average loss equals the accumulated per-batch loss
total divided by the number of test examples, and the reported accuracy
equals the correct count divided by the number of test examples; both
are logged as non-stepped metrics. -/
theorem test_reports_accumulated_batch_means {P E : Type}
    (exLoss : ModelState P → E → ℚ) (exCorrect : ModelState P → E → Bool)
    (m : ModelState P) (loader : DataLoader E) :
    (testE exLoss exCorrect m loader).2.avgLoss =
      (loader.batches.map
        (batchLoss exLoss { params := m.params, training := false })).sum /
          (loader.datasetSize : ℚ)
    ∧ (testE exLoss exCorrect m loader).2.accuracy =
      ((loader.batches.map
        (batchCorrect exCorrect { params := m.params, training := false })).sum : ℚ) /
          (loader.datasetSize : ℚ)
    ∧ (testE exLoss exCorrect m loader).2.events =
      List.replicate loader.batches.length (Event.forwardPass true) ++
        [Event.logMetric "test_loss"
           ((loader.batches.map
             (batchLoss exLoss { params := m.params, training := false })).sum /
               (loader.datasetSize : ℚ)) none,
         Event.logMetric "test_accuracy"
           (((loader.batches.map
             (batchCorrect exCorrect { params := m.params, training := false })).sum : ℚ) /
               (loader.datasetSize : ℚ)) none,
         Event.printLine] := by
  rw [testE_eq]
  exact ⟨rfl, rfl, rfl⟩

/-- C5.  Evaluation leaves every model parameter unchanged — the
parameters after `test` equal the parameters before it (only the
training-mode flag is switched off by `model.eval()`) — and the whole
pass runs under the no-gradient-tracking scope: the forward passes it
performs are exactly one per batch, every one with gradient tracking
off. -/
theorem test_preserves_parameters_and_runs_no_grad {P E : Type}
    (exLoss : ModelState P → E → ℚ) (exCorrect : ModelState P → E → Bool)
    (m : ModelState P) (loader : DataLoader E) :
    (testE exLoss exCorrect m loader).1.params = m.params
    ∧ (testE exLoss exCorrect m loader).2.events.filter isForward =
        List.replicate loader.batches.length (Event.forwardPass true) := by
  rw [testE_eq]
  refine ⟨rfl, ?_⟩
  simp only [List.filter_append]
  rw [List.filter_replicate]
  simp [isForward]

/-- C6.  Evaluation is idempotent: running `test` a second time on the
model state the first run returned (same test loader, no training in
between) reports the same average loss and the same accuracy. -/
theorem test_evaluation_idempotent {P E : Type}
    (exLoss : ModelState P → E → ℚ) (exCorrect : ModelState P → E → Bool)
    (m : ModelState P) (loader : DataLoader E) :
    (testE exLoss exCorrect (testE exLoss exCorrect m loader).1 loader).2.avgLoss =
      (testE exLoss exCorrect m loader).2.avgLoss
    ∧ (testE exLoss exCorrect (testE exLoss exCorrect m loader).1 loader).2.accuracy =
      (testE exLoss exCorrect m loader).2.accuracy := by
  exact ⟨rfl, rfl⟩

/-- C4.  Inside the tracked-run scope `main` executes exactly 10 epoch
iterations, each one training-step call immediately followed by one
evaluation-step call, then one additional final evaluation-step call
before the run scope closes; the evaluation step runs 11 times in
total and the training step 10 times. -/
theorem run_epoch_schedule {P E : Type}
    (exLoss : ModelState P → E → ℚ) (exCorrect : ModelState P → E → Bool)
    (optUpdate : P → List E → P) (m0 : ModelState P)
    (trainLoader testLoader : DataLoader E) :
    ((runMain exLoss exCorrect optUpdate m0 trainLoader testLoader).2).filter isCtl =
      Event.runStart ::
        (((List.range' 1 10).map
            (fun e => [Event.trainStep e, Event.evalStep])).flatten ++
          [Event.evalStep, Event.runEnd])
    ∧ ((runMain exLoss exCorrect optUpdate m0 trainLoader testLoader).2).count
        Event.evalStep = 11
    ∧ ((runMain exLoss exCorrect optUpdate m0 trainLoader testLoader).2).countP
        isTrainMarker = 10 := by
  have hfil :
      ((runMain exLoss exCorrect optUpdate m0 trainLoader testLoader).2).filter isCtl =
        Event.runStart ::
          (((List.range' 1 10).map
              (fun e => [Event.trainStep e, Event.evalStep])).flatten ++
            [Event.evalStep, Event.runEnd]) := by
    unfold runMain
    rw [List.filter_cons]
    simp only [List.filter_append, ctl_epoch_foldl, ctl_test_events, List.filter_cons]
    simp [isCtl]
  refine ⟨hfil, ?_, ?_⟩
  · have := List.count_filter (l := (runMain exLoss exCorrect optUpdate m0
      trainLoader testLoader).2) (p := isCtl) (a := Event.evalStep) (by simp [isCtl])
    rw [← this, hfil]
    decide
  · have hpt : ∀ a : Event, isTrainMarker a = true ↔ (isTrainMarker a && isCtl a) = true := by
      intro a; cases a <;> simp [isTrainMarker, isCtl]
    rw [List.countP_congr (fun a _ => hpt a), ← List.countP_filter, hfil]
    decide

/-- C3.  During one training epoch, a loss/accuracy metric point and a
progress print are emitted exactly on the batches whose index is a
multiple of 100, and at no other batch: the event group of batch `i` is
the forward pass followed by the two metric records and the print when
`i % 100 = 0`, and the forward pass alone otherwise. -/
theorem train_logs_exactly_every_100th_batch {P E : Type}
    (exLoss : ModelState P → E → ℚ) (exCorrect : ModelState P → E → Bool)
    (optUpdate : P → List E → P) (m : ModelState P) (loader : DataLoader E)
    (e i : ℕ)
    (hi : i < (trainE exLoss exCorrect optUpdate m loader e).batchEvents.length) :
    (i % 100 = 0 →
      ∃ l a : ℚ, ∃ s : ℕ,
        (trainE exLoss exCorrect optUpdate m loader e).batchEvents.getD i [] =
          [Event.forwardPass false,
           Event.logMetric "loss" l (some s),
           Event.logMetric "accuracy" a (some s),
           Event.printLine])
    ∧ (i % 100 ≠ 0 →
       (trainE exLoss exCorrect optUpdate m loader e).batchEvents.getD i [] =
         [Event.forwardPass false]) := by
  rw [trainE, trainGo_batchEvents_length] at hi
  obtain ⟨l, a, h⟩ := trainGo_events_getD exLoss exCorrect optUpdate e
    loader.datasetSize loader.batches 0 { m with training := true } 0 i hi
  rw [Nat.zero_add] at h
  constructor
  · intro h100
    refine ⟨l, a, i / 100 * (e + 1), ?_⟩
    rw [trainE, h, if_pos h100]
  · intro h100
    rw [trainE, h, if_neg h100]

/-- Witness for C3: in a concrete two-batch epoch, batch 1 (not a
multiple of 100) emits only its forward pass. -/
theorem train_logs_exactly_every_100th_batch_witness :
    (trainE ceLoss wCorrect ceOpt ceModel wLoader 1).batchEvents.getD 1 [] =
      [Event.forwardPass false] := by
  have hi : 1 < (trainE ceLoss wCorrect ceOpt ceModel wLoader 1).batchEvents.length := by
    rw [trainE, trainGo_batchEvents_length]
    simp [wLoader]
  exact (train_logs_exactly_every_100th_batch ceLoss wCorrect ceOpt ceModel
    wLoader 1 1 hi).2 (by decide)

/-- C9.  The interim training accuracy computed after each batch equals
the cumulative correct count over the batches processed so far divided
by the size of the ENTIRE training dataset; within one epoch the
sequence of interim accuracies is therefore non-decreasing, the value
after the last batch equals the epoch's final accuracy
`correct / N`, and an earlier value equals it only when the prefix
correct count already equals the epoch total. -/
theorem train_interim_accuracy_over_dataset_size {P E : Type}
    (exLoss : ModelState P → E → ℚ) (exCorrect : ModelState P → E → Bool)
    (optUpdate : P → List E → P) (m : ModelState P) (loader : DataLoader E)
    (e : ℕ) (hN : 0 < loader.datasetSize) (hne : loader.batches ≠ []) :
    (∀ k, k < loader.batches.length →
      (trainE exLoss exCorrect optUpdate m loader e).accs.getD k 0 =
        ((((batchCorrectList exCorrect optUpdate { m with training := true }
            loader.batches).take (k + 1)).sum : ℕ) : ℚ) / (loader.datasetSize : ℚ))
    ∧ (∀ j k, j ≤ k → k < loader.batches.length →
      (trainE exLoss exCorrect optUpdate m loader e).accs.getD j 0 ≤
        (trainE exLoss exCorrect optUpdate m loader e).accs.getD k 0)
    ∧ ((trainE exLoss exCorrect optUpdate m loader e).accs.getD
          (loader.batches.length - 1) 0 =
        (((trainE exLoss exCorrect optUpdate m loader e).correct : ℕ) : ℚ) /
          (loader.datasetSize : ℚ))
    ∧ (∀ k, k < loader.batches.length →
      ((trainE exLoss exCorrect optUpdate m loader e).accs.getD k 0 =
          (((trainE exLoss exCorrect optUpdate m loader e).correct : ℕ) : ℚ) /
            (loader.datasetSize : ℚ)
        ↔ ((batchCorrectList exCorrect optUpdate { m with training := true }
            loader.batches).take (k + 1)).sum =
          (batchCorrectList exCorrect optUpdate { m with training := true }
            loader.batches).sum)) := by
  have hNQ : (0 : ℚ) < (loader.datasetSize : ℚ) := by exact_mod_cast hN
  have hacc : ∀ k, k < loader.batches.length →
      (trainE exLoss exCorrect optUpdate m loader e).accs.getD k 0 =
        ((((batchCorrectList exCorrect optUpdate { m with training := true }
            loader.batches).take (k + 1)).sum : ℕ) : ℚ) / (loader.datasetSize : ℚ) := by
    intro k hk
    rw [trainE]
    rw [trainGo_accs_getD exLoss exCorrect optUpdate e loader.datasetSize
      loader.batches 0 { m with training := true } 0 k hk]
    norm_num
  have hcor : (trainE exLoss exCorrect optUpdate m loader e).correct =
      (batchCorrectList exCorrect optUpdate { m with training := true }
        loader.batches).sum := by
    rw [trainE, trainGo_correct]
    norm_num
  have hpref : ∀ j k : ℕ, j ≤ k →
      (((batchCorrectList exCorrect optUpdate { m with training := true }
          loader.batches).take (j + 1)).sum : ℕ) ≤
        (((batchCorrectList exCorrect optUpdate { m with training := true }
          loader.batches).take (k + 1)).sum : ℕ) := by
    intro j k hjk
    have hsub : ((batchCorrectList exCorrect optUpdate { m with training := true }
        loader.batches).take (j + 1)).Sublist
        ((batchCorrectList exCorrect optUpdate { m with training := true }
          loader.batches).take (k + 1)) := by
      have := List.take_sublist (j + 1)
        ((batchCorrectList exCorrect optUpdate { m with training := true }
          loader.batches).take (k + 1))
      rwa [List.take_take, Nat.min_eq_left (by omega)] at this
    exact hsub.sum_le_sum (fun a _ => Nat.zero_le a)
  refine ⟨hacc, ?_, ?_, ?_⟩
  · intro j k hjk hk
    rw [hacc j (lt_of_le_of_lt hjk hk), hacc k hk]
    have := hpref j k hjk
    exact div_le_div_of_nonneg_right (by exact_mod_cast this) hNQ.le
  · have hlen : 0 < loader.batches.length := List.length_pos.mpr hne
    rw [hacc (loader.batches.length - 1) (by omega), hcor]
    congr 2
    rw [Nat.sub_add_cancel hlen]
    rw [← batchCorrectList_length exCorrect optUpdate loader.batches
      { m with training := true }]
    rw [List.take_length]
  · intro k hk
    rw [hacc k hk, hcor]
    rw [div_eq_div_iff hNQ.ne' hNQ.ne']
    rw [mul_left_inj' hNQ.ne']
    exact_mod_cast Iff.rfl

/-- Witness for C9: in a concrete two-batch epoch over a dataset of 10
examples, the interim accuracy after the first batch is 1/10 (one
correct prediction so far, divided by the whole dataset size). -/
theorem train_interim_accuracy_over_dataset_size_witness :
    (trainE ceLoss wCorrect ceOpt ceModel wLoader 1).accs.getD 0 0 = 1 / 10 := by
  have h := train_interim_accuracy_over_dataset_size ceLoss wCorrect ceOpt
    ceModel wLoader 1 (by decide) (by decide)
  have h0 := h.1 0 (by decide)
  rw [h0]
  norm_num [batchCorrectList, batchCorrect, wCorrect, ceOpt, wLoader, ceModel]

/-- C10.  The metric step index emitted during training equals
`batch_idx // 100 * (epoch + 1)` — the steps carried by batch `i`'s
metric records are both that value when `i % 100 = 0` and there are
none otherwise — so in every epoch the first batch's metric point is
logged at step 0, making step indices repeat across epochs. -/
theorem train_step_index_formula {P E : Type}
    (exLoss : ModelState P → E → ℚ) (exCorrect : ModelState P → E → Bool)
    (optUpdate : P → List E → P) (m : ModelState P) (loader : DataLoader E)
    (e i : ℕ)
    (hi : i < (trainE exLoss exCorrect optUpdate m loader e).batchEvents.length) :
    stepsOf ((trainE exLoss exCorrect optUpdate m loader e).batchEvents.getD i []) =
      (if i % 100 = 0 then [i / 100 * (e + 1), i / 100 * (e + 1)] else [])
    ∧ (loader.batches ≠ [] → ∀ e' : ℕ,
      stepsOf ((trainE exLoss exCorrect optUpdate m loader e').batchEvents.getD 0 []) =
        [0, 0]) := by
  have key : ∀ (e' i' : ℕ), i' < loader.batches.length →
      stepsOf ((trainE exLoss exCorrect optUpdate m loader e').batchEvents.getD i' []) =
        (if i' % 100 = 0 then
          [i' / 100 * (e' + 1), i' / 100 * (e' + 1)] else []) := by
    intro e' i' hi'
    obtain ⟨l, a, h⟩ := trainGo_events_getD exLoss exCorrect optUpdate e'
      loader.datasetSize loader.batches 0 { m with training := true } 0 i' hi'
    rw [Nat.zero_add] at h
    rw [trainE, h]
    by_cases h100 : i' % 100 = 0 <;> simp [h100, stepsOf]
  rw [trainE, trainGo_batchEvents_length] at hi
  refine ⟨key e i hi, ?_⟩
  intro hne e'
  rw [key e' 0 (List.length_pos.mpr hne)]
  norm_num

/-- Witness for C10: in a concrete two-batch epoch with epoch index 7,
batch 0's two metric records both carry step 0. -/
theorem train_step_index_formula_witness :
    stepsOf ((trainE ceLoss wCorrect ceOpt ceModel wLoader 7).batchEvents.getD 0 []) =
      [0, 0] := by
  have hi : 0 < (trainE ceLoss wCorrect ceOpt ceModel wLoader 7).batchEvents.length := by
    rw [trainE, trainGo_batchEvents_length]
    simp [wLoader]
  exact (train_step_index_formula ceLoss wCorrect ceOpt ceModel wLoader 7 0
    hi).2 (by decide) 7

/-- C2, counterexample.  sklearn's `train_test_split` takes the CEILING
of `test_size * n`, not the nearest integer: for a dataset of 8
examples the test partition has `ceil(8/7) = 2` examples while
`round(8/7) = 1`. -/
theorem split_test_size_not_round_cex :
    testSize 8 = 2 ∧ round ((8 : ℚ) / 7) = 1 ∧
      (testSize 8 : ℤ) ≠ round ((8 : ℚ) / 7) := by
  have h8 : (⌈((8 : ℕ) : ℚ) / 7⌉ : ℤ) = 2 := by
    rw [Int.ceil_eq_iff]
    push_cast
    norm_num
  have hr : round ((8 : ℚ) / 7) = 1 := by norm_num [round_eq]
  have ht : testSize 8 = 2 := by rw [testSize, h8]; rfl
  exact ⟨ht, hr, by rw [ht, hr]; norm_num⟩

/-- C2 (amended).  For every dataset of `n` examples split with the
fixed seed (the seed-determined index permutation `σ`), the test
partition has `ceil(n/7)` indices, the train partition the remaining
`n - ceil(n/7)`, the two partitions are disjoint and together are a
permutation of all `n` indices.  (The split is a pure function of the
dataset size and the seed-determined permutation, hence identical
across runs.) -/
theorem split_partition_spec (n : ℕ) (σ : Equiv.Perm (Fin n)) :
    (splitIdx n σ).1.length = testSize n
    ∧ (splitIdx n σ).2.length = n - testSize n
    ∧ (splitIdx n σ).1.Disjoint (splitIdx n σ).2
    ∧ ((splitIdx n σ).1 ++ (splitIdx n σ).2).Perm (List.finRange n) := by
  have hlen : ((List.finRange n).map σ).length = n := by
    rw [List.length_map, List.length_finRange]
  have hnd : ((List.finRange n).map σ).Nodup :=
    (List.nodup_finRange n).map σ.injective
  have happ := List.take_append_drop (testSize n) ((List.finRange n).map σ)
  refine ⟨?_, ?_, ?_, ?_⟩
  · rw [splitIdx]
    simp only [List.length_take, hlen]
    exact Nat.min_eq_left (testSize_le n)
  · rw [splitIdx]
    simp only [List.length_drop, hlen]
  · rw [splitIdx]
    have := hnd
    rw [← happ, List.nodup_append] at this
    exact this.2.2
  · rw [splitIdx]
    simp only []
    rw [happ]
    have hperm : ((List.finRange n).map σ).Perm (List.finRange n) := by
      rw [List.perm_ext_iff_of_nodup hnd (List.nodup_finRange n)]
      intro a
      simp only [List.mem_map, List.mem_finRange, iff_true]
      exact ⟨σ.symm a, trivial, σ.apply_symm_apply a⟩
    exact hperm

/-- C8.  For any input batch of `N` samples of shape 1×28×28, the
model's forward pass returns `N` class rows, each indexed by the 10
classes, and every output row is a valid log-probability distribution:
its exponentiated entries sum to 1. -/
theorem forward_shape_and_log_softmax_normalized (W : CNNWeights)
    (xs : List (Fin 1 → Fin 28 → Fin 28 → ℚ)) :
    (forwardBatch W xs).length = xs.length
    ∧ ∀ r ∈ forwardBatch W xs, (∑ i, Real.exp (r i)) = 1 := by
  refine ⟨List.length_map xs _, ?_⟩
  intro r hr
  rw [forwardBatch, List.mem_map] at hr
  obtain ⟨x, _, rfl⟩ := hr
  exact sum_exp_logSoftmax _



/-- C7, counterexample.  A constant feature column refutes "every
training-partition column has standard deviation 1 after scaling": on
a 2×1 training matrix with both entries 5, the fitted variance is 0,
sklearn's scaler therefore divides by 1, every scaled entry is 0, and
the scaled column's standard deviation is 0, not 1 (its mean is still
0). -/
theorem scaler_constant_column_cex :
    colMean 2 1 (scalePartitions 2 2 1 cX cX).1 0 = 0
    ∧ colStd 2 1 (scalePartitions 2 2 1 cX cX).1 0 = 0
    ∧ colStd 2 1 (scalePartitions 2 2 1 cX cX).1 0 ≠ 1 := by
  have hmean : colMean 2 1 cX 0 = 5 := by
    rw [colMean]
    rw [Fin.sum_univ_two]
    norm_num [cX]
  have hvar : colVar 2 1 cX 0 = 0 := by
    rw [colVar, Fin.sum_univ_two, hmean]
    norm_num [cX]
  have hT : ∀ (i : Fin 2) (jj : Fin 1), (scalePartitions 2 2 1 cX cX).1 i jj = 0 := by
    intro i jj
    have hjj : jj = 0 := Subsingleton.elim jj 0
    subst hjj
    simp only [scalePartitions, scalerTransform, scalerScale, hvar, if_pos rfl,
      hmean, cX]
    norm_num
  have hTmean : colMean 2 1 (scalePartitions 2 2 1 cX cX).1 0 = 0 := by
    rw [colMean, Fin.sum_univ_two, hT, hT]
    norm_num
  have hTvar : colVar 2 1 (scalePartitions 2 2 1 cX cX).1 0 = 0 := by
    rw [colVar, Fin.sum_univ_two, hT, hT, hTmean]
    norm_num
  have hTstd : colStd 2 1 (scalePartitions 2 2 1 cX cX).1 0 = 0 := by
    rw [colStd, hTvar, Real.sqrt_zero]
  exact ⟨hTmean, hTstd, by rw [hTstd]; norm_num⟩

/-- C7 (amended).  The standardization is fit on the training partition
only: every scaled training column has mean exactly 0; every training
column whose fitted variance is nonzero has standard deviation exactly
1 after scaling; the scaled training partition does not depend on the
test partition; and the test partition is transformed with the
parameters fitted on the training partition (a zero-variance training
column is scaled by 1 instead, landing at deviation 0, see the
counterexample). -/
theorem scaler_fit_on_train_only (n m d : ℕ) (Xtr : Fin n → Fin d → ℝ)
    (Xte : Fin m → Fin d → ℝ) (j : Fin d) (hn : 0 < n)
    (hv : colVar n d Xtr j ≠ 0) :
    (∀ j' : Fin d, colMean n d (scalePartitions n m d Xtr Xte).1 j' = 0)
    ∧ colStd n d (scalePartitions n m d Xtr Xte).1 j = 1
    ∧ (∀ Xte' : Fin m → Fin d → ℝ,
        (scalePartitions n m d Xtr Xte').1 = (scalePartitions n m d Xtr Xte).1)
    ∧ (scalePartitions n m d Xtr Xte).2 =
        scalerTransform m d (colMean n d Xtr) (scalerScale n d Xtr) Xte := by
  have hnR : ((n : ℝ)) ≠ 0 := by positivity
  have hv0 : 0 ≤ colVar n d Xtr j := colVar_nonneg n d Xtr j
  have hvpos : 0 < colVar n d Xtr j := lt_of_le_of_ne hv0 (Ne.symm hv)
  have hfirst : (scalePartitions n m d Xtr Xte).1 =
      scalerTransform n d (colMean n d Xtr) (scalerScale n d Xtr) Xtr := rfl
  have hmean : ∀ j' : Fin d, colMean n d (scalePartitions n m d Xtr Xte).1 j' = 0 := by
    intro j'
    rw [hfirst]
    exact colMean_scaled n d Xtr hn (scalerScale n d Xtr) j'
  refine ⟨hmean, ?_, fun Xte' => rfl, rfl⟩
  have hs : scalerScale n d Xtr j = Real.sqrt (colVar n d Xtr j) := by
    rw [scalerScale, if_neg hv]
  have hs2 : Real.sqrt (colVar n d Xtr j) ^ 2 = colVar n d Xtr j :=
    Real.sq_sqrt hv0
  have hsne : Real.sqrt (colVar n d Xtr j) ≠ 0 :=
    (Real.sqrt_pos.mpr hvpos).ne'
  have hsumsq : (∑ i, (Xtr i j - colMean n d Xtr j) ^ 2) =
      colVar n d Xtr j * (n : ℝ) := by
    rw [colVar]
    field_simp
  have hTvar : colVar n d (scalePartitions n m d Xtr Xte).1 j = 1 := by
    rw [colVar, hmean j]
    rw [hfirst]
    simp only [scalerTransform, hs, sub_zero, div_pow, hs2]
    rw [← Finset.sum_div, hsumsq]
    field_simp
  rw [colStd, hTvar, Real.sqrt_one]

/-- Witness for C7: on a concrete 2×1 training matrix with entries 0
and 2 (fitted variance 1 ≠ 0), the scaled column has standard
deviation 1. -/
theorem scaler_fit_on_train_only_witness :
    colStd 2 1 (scalePartitions 2 2 1 wX wX).1 0 = 1 := by
  have hmean : colMean 2 1 wX 0 = 1 := by
    rw [colMean, Fin.sum_univ_two]
    norm_num [wX]
  have hv : colVar 2 1 wX 0 ≠ 0 := by
    rw [colVar, Fin.sum_univ_two, hmean]
    norm_num [wX]
  exact (scaler_fit_on_train_only 2 2 1 wX wX 0 (by norm_num) hv).2.1

end ModelTrain
